import Mathlib

/-!
Verification development for the internal reporting system, an
extract-normalize-load pipeline with idempotent persistence and
time-windowed metrics aggregation.

The definitions below are a shallow embedding of the Python sources:

* `src/etl/loaders/supabase_loader.py` — upsert-based persistence,
  keyed by natural identifiers;
* `src/etl/analytics/metrics_calculator.py` — weekly metrics windows,
  accounts receivable, current-balance batching;
* `src/etl/extractors/quickbooks_extractor.py` — invoice status
  derivation, OAuth token refresh, payment splitting;
* `src/etl/extractors/mercury_extractor.py` — transaction
  categorization heuristic;
* `src/etl/slack/slack_reporter.py` — collection-rate guard.

Monetary values are modelled as rationals; timestamps as integers
(days, minutes or seconds, as stated at each definition).  The store
compares ISO-8601 timestamp strings lexicographically, which agrees
with chronological order for the fixed-width format the system writes,
so integer comparisons are a faithful model of the stored comparisons.
-/

/-- Rounding to two decimal places, as the Python sources do with
`round(x, 2)` at each point of calculation.  The tie-breaking mode is
irrelevant to the properties proved here. -/
def round2 (q : ℚ) : ℚ := (round (q * 100) : ℤ) / 100

/-- A rational number representable with at most two decimal places:
one hundred times it is an integer. -/
def isTwoDecimal (q : ℚ) : Prop := ∃ n : ℤ, q * 100 = (n : ℚ)

/-! ## Collection rate (src/etl/slack/slack_reporter.py, line 110)

`collection_rate = (collected / invoiced * 100) if invoiced > 0 else 0`
-/

/-- Embeds the derived collection-rate expression of
`SlackReporter._format_weekly_report`. -/
def collectionRate (collected invoiced : ℚ) : ℚ :=
  if invoiced > 0 then collected / invoiced * 100 else 0

/-! ## Invoice status (src/etl/extractors/quickbooks_extractor.py,
lines 167-180)

Balances are rationals; `now` and due dates are minutes on a common
timeline (the Python code compares the parsed due date, at midnight,
against `datetime.now()`).  A missing or empty `DueDate` is `none`. -/

/-- Embeds `QuickBooksExtractor._get_invoice_status`. -/
def getInvoiceStatus (now : ℤ) (balance : ℚ) (dueDate : Option ℤ) : String :=
  if balance = 0 then "Paid"
  else
    match dueDate with
    | some d => if d < now then "Overdue" else "Unpaid"
    | none => "Unpaid"

/-! ## Calendar arithmetic

`metrics_calculator.py` parses `YYYY-MM-DD` strings with `strptime`
and shifts them with `timedelta(days=...)`; dates are therefore day
numbers of the proleptic Gregorian calendar.  `daysFromCivil` is the
standard civil-date to day-number conversion (days since 1970-01-01),
so concrete dates in the claims can be written as themselves. -/

/-- Day number (days since 1970-01-01) of a Gregorian date. -/
def daysFromCivil (y m d : ℤ) : ℤ :=
  let y' : ℤ := if m ≤ 2 then y - 1 else y
  let era : ℤ := (if 0 ≤ y' then y' else y' - 399) / 400
  let yoe : ℤ := y' - era * 400
  let mp : ℤ := if 2 < m then m - 3 else m + 9
  let doy : ℤ := (153 * mp + 2) / 5 + d - 1
  let doe : ℤ := yoe * 365 + yoe / 4 - yoe / 100 + doy
  era * 146097 + doe - 719468

/-- Minute number of a Gregorian date-time (minutes since the epoch). -/
def minutesOfCivil (y m d hh mm : ℤ) : ℤ :=
  daysFromCivil y m d * 1440 + hh * 60 + mm

/-! ## Canonical record shapes (spec section 3)

Field names follow the column names the loaders write.  `synced_at`
is stamped by the loader, hence `Option` before the first load;
date-valued fields carry the integer granularity noted per field. -/

/-- Canonical commit row (`github_commits` table).  `date` is in
minutes; `synced_at` in seconds, stamped at load time. -/
structure GithubCommit where
  commit_sha : String
  author : String
  date : ℤ
  repository : String
  message : String
  additions : ℤ
  deletions : ℤ
  synced_at : Option ℤ
deriving DecidableEq

/-- Canonical pull-request row (`github_pull_requests` table).
`merged_at` is in minutes and present iff the pull request merged. -/
structure GithubPullRequest where
  pr_number : ℤ
  repository : String
  author : String
  title : String
  state : String
  created_at : ℤ
  merged_at : Option ℤ
  synced_at : Option ℤ
deriving DecidableEq

/-- Canonical Mercury account row (`mercury_accounts` table).
`synced_at` is in seconds, stamped at load time. -/
structure MercuryAccount where
  account_id : String
  name : String
  type : String
  balance : ℚ
  available_balance : ℚ
  currency : String
  status : String
  synced_at : Option ℤ
deriving DecidableEq

/-- Canonical invoice row (`quickbooks_invoices` table).
`invoice_date` and `due_date` are day numbers. -/
structure InvoiceRecord where
  invoice_id : String
  customer_id : String
  customer_name : String
  invoice_date : ℤ
  due_date : ℤ
  total_amount : ℚ
  balance : ℚ
  status : String
  synced_at : Option ℤ
deriving DecidableEq

/-- Canonical payment row (`quickbooks_payments` table).
`payment_date` is a day number. -/
structure PaymentRecord where
  payment_id : String
  invoice_id : String
  payment_date : ℤ
  amount : ℚ
  synced_at : Option ℤ
deriving DecidableEq

/-! ## The loader upsert (src/etl/loaders/supabase_loader.py)

`table(...).upsert(batch, on_conflict=key)` is one bulk statement:
every stored row whose key occurs in the batch is overwritten in
place by the batch row with that key, and batch rows whose key is new
are appended, in batch order.  A table is a list of rows. -/

/-- One bulk upsert of `batch` into `store`, keyed by `key`. -/
def upsertBatch {α : Type} (key : α → String) (store batch : List α) : List α :=
  store.map (fun row => (batch.find? (fun r => key r == key row)).getD row)
  ++ batch.filter (fun r => ! store.any (fun row => key row == key r))

/-- Embeds `SupabaseLoader.load_github_commits`: stamp `synced_at` on
every record, then bulk-upsert on `commit_sha`.  Returns the new table
and the reported count (the Python function returns `len(commits)`). -/
def load_github_commits (stamp : ℤ) (commits : List GithubCommit)
    (store : List GithubCommit) : List GithubCommit × ℕ :=
  let stamped := commits.map (fun c => { c with synced_at := some stamp })
  (upsertBatch (fun c => c.commit_sha) store stamped, commits.length)

/-- Embeds `SupabaseLoader.load_mercury_accounts`: stamp `synced_at`,
then bulk-upsert on `account_id`. -/
def load_mercury_accounts (stamp : ℤ) (accounts : List MercuryAccount)
    (store : List MercuryAccount) : List MercuryAccount × ℕ :=
  let stamped := accounts.map (fun a => { a with synced_at := some stamp })
  (upsertBatch (fun a => a.account_id) store stamped, accounts.length)

/-! ## Per-record payment loading (supabase_loader.py, lines 77-112)

`load_quickbooks_payments` upserts one record at a time; a write whose
invoice is absent from `quickbooks_invoices` fails its foreign-key
constraint and is skipped and counted, and the loop continues.  The
set of invoice ids present in the store decides which writes fail. -/

/-- The loop of `load_quickbooks_payments` over already-stamped
records: returns the table together with the loaded and skipped
counts. -/
def loadPaymentsLoop (invoiceIds : List String) (ps : List PaymentRecord)
    (store : List PaymentRecord) : List PaymentRecord × ℕ × ℕ :=
  match ps with
  | [] => (store, 0, 0)
  | p :: rest =>
    if invoiceIds.contains p.invoice_id then
      let r := loadPaymentsLoop invoiceIds rest
        (upsertBatch (fun q => q.payment_id) store [p])
      (r.1, r.2.1 + 1, r.2.2)
    else
      let r := loadPaymentsLoop invoiceIds rest store
      (r.1, r.2.1, r.2.2 + 1)

/-- Embeds `SupabaseLoader.load_quickbooks_payments`: stamp
`synced_at` on every record, then upsert records one by one on
`payment_id`, skipping and counting foreign-key failures.  The Python
function returns the loaded count and prints the skipped count. -/
def load_quickbooks_payments (invoiceIds : List String) (stamp : ℤ)
    (payments : List PaymentRecord) (store : List PaymentRecord) :
    List PaymentRecord × ℕ × ℕ :=
  loadPaymentsLoop invoiceIds
    (payments.map (fun p => { p with synced_at := some stamp })) store

/-! ## Metrics engine (src/etl/analytics/metrics_calculator.py)

Week boundaries are day numbers; commit and merge timestamps are
minutes.  The store filters `gte`/`lt` on ISO strings, which order as
the underlying instants do, so the filters become integer bounds:
midnight of day `d` is minute `d * 1440`. -/

/-- `week_end = week_start + 6 days` (`calculate_weekly_metrics`,
line 32). -/
def weekEndOfDay (weekStart : ℤ) : ℤ := weekStart + 6

/-- Embeds `MetricsCalculator._count_commits`: commits with
`week_start <= date < week_end + 1 day`. -/
def countCommits (weekStart : ℤ) (commits : List GithubCommit) : ℕ :=
  commits.countP (fun c =>
    decide (weekStart * 1440 ≤ c.date)
    && decide (c.date < (weekEndOfDay weekStart + 1) * 1440))

/-- Embeds `MetricsCalculator._count_prs_merged`: pull requests with
state `merged` and `week_start <= merged_at < week_end + 1 day`.  A
null `merged_at` never satisfies the store comparison. -/
def countPrsMerged (weekStart : ℤ) (prs : List GithubPullRequest) : ℕ :=
  prs.countP (fun p =>
    (p.state == "merged")
    && (match p.merged_at with
        | some t =>
          decide (weekStart * 1440 ≤ t)
          && decide (t < (weekEndOfDay weekStart + 1) * 1440)
        | none => false))

/-- The window of the spec: the half-open interval
`[week_start, week_end + 1 day)` at minute granularity. -/
def specWindow (weekStart t : ℤ) : Prop :=
  weekStart * 1440 ≤ t ∧ t < (weekEndOfDay weekStart + 1) * 1440

instance (weekStart t : ℤ) : Decidable (specWindow weekStart t) := by
  unfold specWindow
  infer_instance

/-- Embeds `MetricsCalculator._calculate_ar`: the sum of `balance`
over invoices whose status is not `Paid`, rounded to two decimals. -/
def calculate_ar (invoices : List InvoiceRecord) : ℚ :=
  round2 (((invoices.filter (fun i => ! (i.status == "Paid"))).map
    (fun i => i.balance)).sum)

/-- Embeds `MetricsCalculator._calculate_cash_collected`: the sum of
payment `amount` with `start <= payment_date <= end`, rounded. -/
def calculate_cash_collected (startDay endDay : ℤ)
    (payments : List PaymentRecord) : ℚ :=
  round2 (((payments.filter (fun p =>
    decide (startDay ≤ p.payment_date) && decide (p.payment_date ≤ endDay))).map
    (fun p => p.amount)).sum)

/-- Embeds `MetricsCalculator._calculate_invoiced`: the sum of invoice
`total_amount` with `start <= invoice_date <= end`, rounded. -/
def calculate_invoiced (startDay endDay : ℤ)
    (invoices : List InvoiceRecord) : ℚ :=
  round2 (((invoices.filter (fun i =>
    decide (startDay ≤ i.invoice_date) && decide (i.invoice_date ≤ endDay))).map
    (fun i => i.total_amount)).sum)

/-- The most recent `synced_at` value among stored accounts, as the
query `order("synced_at", desc=True).limit(1)` returns it.  An account
with no stamp sorts below every stamped one (the loader always stamps,
so stored rows are stamped in practice). -/
def latestSyncedAt (accounts : List MercuryAccount) : Option ℤ :=
  accounts.foldr (fun a acc =>
    match a.synced_at, acc with
    | none, acc => acc
    | some t, none => some t
    | some t, some m => some (max t m)) none

/-- Embeds `MetricsCalculator._get_current_balance`: 0 with no
accounts; otherwise the rounded sum of `balance` over accounts whose
`synced_at` is at least the most recent value minus 10 seconds. -/
def getCurrentBalance (accounts : List MercuryAccount) : ℚ :=
  match latestSyncedAt accounts with
  | none => 0
  | some latest =>
    let batch := accounts.filter (fun a =>
      match a.synced_at with
      | some t => decide (latest - 10 ≤ t)
      | none => false)
    if batch.isEmpty then 0
    else round2 ((batch.map (fun a => a.balance)).sum)

/-! ## QuickBooks token lifecycle
(src/etl/extractors/quickbooks_extractor.py, lines 49-83)

The mutable token fields of `QuickBooksExtractor` form the state; the
provider reply to the refresh request is a parameter (`none` for any
non-200 reply).  A failed refresh raises, modelled as `Except.error`. -/

/-- The token-holding fields of `QuickBooksExtractor`. -/
structure QBTokenState where
  access_token : Option String
  refresh_token : String
  token_expires_at : Option ℤ
deriving DecidableEq

/-- A successful token endpoint reply. -/
structure TokenResponse where
  access_token : String
  refresh_token : String
  expires_in : ℤ
deriving DecidableEq

/-- Embeds `QuickBooksExtractor._refresh_access_token`: on a 200 reply
store the new access token, replace the stored refresh token with the
returned one, and set the expiry to `now + expires_in`; otherwise
raise. -/
def refresh_access_token (resp : Option TokenResponse) (now : ℤ)
    (_st : QBTokenState) : Except String QBTokenState :=
  match resp with
  | some tokens =>
    Except.ok
      { access_token := some tokens.access_token
        refresh_token := tokens.refresh_token
        token_expires_at := some (now + tokens.expires_in) }
  | none => Except.error "Failed to refresh QuickBooks access token"

/-- Embeds `QuickBooksExtractor._ensure_valid_token`: refresh exactly
when an expiry is stored and `now > token_expires_at - 300`. -/
def ensure_valid_token (resp : Option TokenResponse) (now : ℤ)
    (st : QBTokenState) : Except String QBTokenState :=
  match st.token_expires_at with
  | some exp => if exp - 300 < now then refresh_access_token resp now st else Except.ok st
  | none => Except.ok st

/-! ## Mercury transaction categorization
(src/etl/extractors/mercury_extractor.py, lines 159-194) -/

/-- `pattern` occurs at the head of `text`. -/
def charsStartWith : List Char → List Char → Bool
  | [], _ => true
  | _ :: _, [] => false
  | a :: p, b :: t => a == b && charsStartWith p t

/-- `pattern` occurs somewhere inside `text` (the Python `in`
operator on strings). -/
def charsContain (pattern : List Char) : List Char → Bool
  | [] => pattern.isEmpty
  | c :: rest => charsStartWith pattern (c :: rest) || charsContain pattern rest

/-- String containment, `word in combined` in the Python source. -/
def strContains (s w : String) : Bool := charsContain w.toList s.toList

/-- `any(word in combined for word in words)`. -/
def anyKeyword (combined : String) (words : List String) : Bool :=
  words.any (fun w => strContains combined w)

/-- The fields of a raw Mercury transaction object the categorizer
reads.  `category = some c` models the key being present with value
`c`; `note`/`counterpartyName` are `none` when missing or null. -/
structure RawMercuryTransaction where
  category : Option String
  note : Option String
  counterpartyName : Option String
deriving DecidableEq

/-- ASCII lowercasing of one character, the effect of the Python
`str.lower` on the texts involved. -/
def charLower (c : Char) : Char :=
  if c.toNat < 65 || 90 < c.toNat then c else Char.ofNat (c.toNat + 32)

/-- ASCII lowercasing of a string. -/
def strLower (s : String) : String := String.mk (s.data.map charLower)

/-- `(transaction.get(field) or "").lower()`. -/
def lowerOr (s : Option String) : String :=
  match s with
  | some s => strLower s
  | none => ""

/-- The combined free text the keyword match runs over:
`f"{note} {counterparty}"` after lowercasing. -/
def combinedText (txn : RawMercuryTransaction) : String :=
  lowerOr txn.note ++ " " ++ lowerOr txn.counterpartyName

/-- Embeds `MercuryExtractor._categorize_transaction`. -/
def categorizeTransaction (txn : RawMercuryTransaction) : String :=
  match txn.category with
  | some c => c
  | none =>
    let combined := combinedText txn
    if anyKeyword combined ["payroll", "salary", "wage"] then "Payroll"
    else if anyKeyword combined ["aws", "azure", "gcp", "cloud"] then "Infrastructure"
    else if anyKeyword combined ["stripe", "payment", "invoice"] then "Revenue"
    else if anyKeyword combined ["rent", "lease"] then "Rent"
    else if anyKeyword combined ["contractor", "freelance"] then "Contractors"
    else if anyKeyword combined ["marketing", "ads", "advertising"] then "Marketing"
    else if anyKeyword combined ["software", "saas", "subscription"] then "Software"
    else "Other"

/-- The precedence-ordered rule table stated by the spec (section
4.1): first match wins, else `Other`. -/
def categoryRules : List (List String × String) :=
  [ (["payroll", "salary", "wage"], "Payroll")
  , (["aws", "azure", "gcp", "cloud"], "Infrastructure")
  , (["stripe", "payment", "invoice"], "Revenue")
  , (["rent", "lease"], "Rent")
  , (["contractor", "freelance"], "Contractors")
  , (["marketing", "ads", "advertising"], "Marketing")
  , (["software", "saas", "subscription"], "Software") ]

/-- First matching rule of an ordered rule table, else `Other`. -/
def firstCategoryMatch (combined : String) :
    List (List String × String) → String
  | [] => "Other"
  | (ws, label) :: rest =>
    if anyKeyword combined ws then label else firstCategoryMatch combined rest

/-- The categorization the spec describes, written from its words:
explicit category verbatim when supplied, otherwise the first match in
the fixed precedence order. -/
def specCategorize (txn : RawMercuryTransaction) : String :=
  match txn.category with
  | some c => c
  | none => firstCategoryMatch (combinedText txn) categoryRules

/-! ## QuickBooks payment extraction
(src/etl/extractors/quickbooks_extractor.py, lines 211-228) -/

/-- One entry of a `LinkedTxn` array. -/
structure QBLinkedTxn where
  TxnType : String
  TxnId : String
deriving DecidableEq

/-- One entry of a payment `Line` array. -/
structure QBLine where
  LinkedTxn : List QBLinkedTxn
deriving DecidableEq

/-- The fields of a raw QuickBooks payment object `get_payments`
reads.  `TxnDate` is a day number. -/
structure QBRawPayment where
  Id : String
  TxnDate : ℤ
  TotalAmt : ℚ
  Line : List QBLine
deriving DecidableEq

/-- The linked invoice ids collected by the inner loops of
`get_payments`: for every line, every linked transaction of type
`Invoice`, as `INV-<TxnId>`. -/
def linkedInvoiceIds (pmt : QBRawPayment) : List String :=
  (pmt.Line.map (fun line =>
    (line.LinkedTxn.filter (fun t => t.TxnType == "Invoice")).map
      (fun t => "INV-" ++ t.TxnId))).flatten

/-- The canonical payment records `get_payments` emits for one raw
payment: one per linked invoice id, with the total split evenly. -/
def paymentRecordsOf (pmt : QBRawPayment) : List PaymentRecord :=
  let ids := linkedInvoiceIds pmt
  ids.map (fun invId =>
    { payment_id := "PMT-" ++ pmt.Id ++ "-" ++ invId
      invoice_id := invId
      payment_date := pmt.TxnDate
      amount := pmt.TotalAmt / (ids.length : ℚ)
      synced_at := none })

/-- Embeds the transformation loop of
`QuickBooksExtractor.get_payments` over a page of raw payments. -/
def get_payments (raw : List QBRawPayment) : List PaymentRecord :=
  (raw.map paymentRecordsOf).flatten

/-! ## Concrete data used by the claims -/

/-- Invoice ids present in the store for the partial-load scenario. -/
def demoInvoiceIds : List String :=
  ["INV-1", "INV-2", "INV-3", "INV-4", "INV-5", "INV-6", "INV-7"]

/-- A payment record before loading (no `synced_at` yet). -/
def mkPayment (pid invid : String) : PaymentRecord :=
  { payment_id := pid, invoice_id := invid, payment_date := 0
    amount := 100, synced_at := none }

/-- Ten payments of which three reference invoices that are not in
`demoInvoiceIds`. -/
def demoPayments : List PaymentRecord :=
  [ mkPayment "PMT-1" "INV-1", mkPayment "PMT-2" "INV-2"
  , mkPayment "PMT-3" "INV-8", mkPayment "PMT-4" "INV-3"
  , mkPayment "PMT-5" "INV-4", mkPayment "PMT-6" "INV-9"
  , mkPayment "PMT-7" "INV-5", mkPayment "PMT-8" "INV-6"
  , mkPayment "PMT-9" "INV-10", mkPayment "PMT-10" "INV-7" ]

/-- An account row with the given id, balance and sync second. -/
def mkAccount (aid : String) (bal : ℚ) (sync : ℤ) : MercuryAccount :=
  { account_id := aid, name := aid, type := "checking", balance := bal
    available_balance := bal, currency := "USD", status := "active"
    synced_at := some sync }

/-- Accounts synced at seconds T = 0, T + 5 and T + 20, with balances
1, 2 and 4. -/
def demoAccounts : List MercuryAccount :=
  [mkAccount "A1" 1 0, mkAccount "A2" 2 5, mkAccount "A3" 4 20]

/-- A raw QuickBooks payment of 100 linked to three invoices. -/
def demoRawPayment : QBRawPayment :=
  { Id := "77", TxnDate := 0, TotalAmt := 100
    Line := [ { LinkedTxn := [⟨"Invoice", "1"⟩] }
            , { LinkedTxn := [⟨"Invoice", "2"⟩, ⟨"Invoice", "3"⟩] } ] }

/-- A raw QuickBooks payment whose lines link no invoice. -/
def demoZeroInvoicePayment : QBRawPayment :=
  { Id := "9", TxnDate := 0, TotalAmt := 250
    Line := [ { LinkedTxn := [⟨"Payment", "4"⟩] }, { LinkedTxn := [] } ] }

/-- A commit on the last counted minute of the example week. -/
def demoCommitMar10 : GithubCommit :=
  { commit_sha := "aaa1", author := "dev", date := minutesOfCivil 2024 3 10 23 59
    repository := "org/app", message := "m", additions := 1, deletions := 0
    synced_at := none }

/-- A commit on the first minute after the example week. -/
def demoCommitMar11 : GithubCommit :=
  { commit_sha := "bbb2", author := "dev", date := minutesOfCivil 2024 3 11 0 0
    repository := "org/app", message := "m", additions := 1, deletions := 0
    synced_at := none }

/-- Two commits with distinct shas, for the idempotence scenario. -/
def demoCommitBatch : List GithubCommit :=
  [demoCommitMar10, demoCommitMar11]

/-- Two accounts with distinct ids, for the idempotence scenario. -/
def demoAccountBatch : List MercuryAccount :=
  [mkAccount "A1" 10 0, mkAccount "A2" 20 0]

/-! # Theorems -/

theorem round2_isTwoDecimal (q : ℚ) : isTwoDecimal (round2 q) := by
  refine ⟨round (q * 100), ?_⟩
  unfold round2
  rw [div_mul_cancel₀]
  norm_num

/-- C7: the derived collection rate equals
`cash_collected / invoiced_amount * 100` when the invoiced amount is
positive, and is 0 when the invoiced amount is 0 — the guarded
division never divides by zero. -/
theorem collectionRate_guard (c i : ℚ) :
    (0 < i → collectionRate c i = c / i * 100)
    ∧ (i = 0 → collectionRate c i = 0) := by
  constructor
  · intro h
    simp [collectionRate, h]
  · intro h
    simp [collectionRate, h]

theorem collectionRate_guard_witness :
    collectionRate 50 200 = 50 / 200 * 100 ∧ collectionRate 7 0 = 0 :=
  ⟨(collectionRate_guard 50 200).1 (by norm_num),
   (collectionRate_guard 7 0).2 rfl⟩

/-- C4 counterexample: at a negative balance with a past due date the
code derives `Overdue`, although the claim requires `balance > 0` for
`Overdue`; the claimed equivalence is false as stated. -/
theorem invoice_status_negative_balance_cex :
    getInvoiceStatus 100 (-1) (some 0) = "Overdue" ∧ ¬ (0 < (-1 : ℚ)) := by
  constructor
  · decide
  · decide

/-- C4 amended: `Paid` exactly when the balance is 0; `Overdue`
exactly when the balance is nonzero and a due date is present and in
the past; `Unpaid` whenever the balance is nonzero and the due date is
absent or not in the past. -/
theorem invoice_status_spec (now : ℤ) (b : ℚ) (d : Option ℤ) :
    (getInvoiceStatus now b d = "Paid" ↔ b = 0)
    ∧ (getInvoiceStatus now b d = "Overdue"
        ↔ b ≠ 0 ∧ ∃ dd, d = some dd ∧ dd < now)
    ∧ (b ≠ 0 ∧ (∀ dd, d = some dd → now ≤ dd) →
        getInvoiceStatus now b d = "Unpaid") := by
  unfold getInvoiceStatus
  by_cases hb : b = 0
  · rcases d with _ | dd <;> simp [hb]
  · rcases d with _ | dd
    · simp [hb]
    · by_cases hd : dd < now <;> simp [hb, hd]

theorem invoice_status_spec_witness :
    ((5 : ℚ) ≠ 0 ∧ ∀ dd : ℤ, (some 20 : Option ℤ) = some dd → (10 : ℤ) ≤ dd)
    ∧ getInvoiceStatus 10 5 (some 20) = "Unpaid" := by
  refine ⟨⟨by norm_num, ?_⟩, ?_⟩
  · intro dd h
    cases h
    decide
  · exact (invoice_status_spec 10 5 (some 20)).2.2
      ⟨by norm_num, fun dd h => by cases h; decide⟩

/-- C5: categorization uses a supplied category verbatim, otherwise
the case-insensitive keyword match in the fixed precedence order
payroll, infrastructure, revenue, rent, contractors, marketing,
software, else `Other` (first match wins); in particular a note
containing both `payroll` and `aws` classifies as `Payroll`. -/
theorem categorize_matches_spec :
    (∀ txn, categorizeTransaction txn = specCategorize txn)
    ∧ categorizeTransaction
        { category := none, note := some "payroll aws"
          counterpartyName := none } = "Payroll" := by
  constructor
  · intro txn
    cases h : txn.category with
    | some c => simp [categorizeTransaction, specCategorize, h]
    | none =>
      simp only [categorizeTransaction, specCategorize, h,
        categoryRules, firstCategoryMatch]
  · decide

/-- C2: `week_end = week_start + 6 days`, and commits and merged pull
requests are counted over the half-open window
`[week_start, week_end + 1 day)` on their own timestamp; for the week
starting 2024-03-04 the end is 2024-03-10, a commit at
2024-03-10T23:59 is counted and one at 2024-03-11T00:00 is not. -/
theorem weekly_window_spec (ws : ℤ) (commits : List GithubCommit)
    (prs : List GithubPullRequest) :
    weekEndOfDay ws = ws + 6
    ∧ countCommits ws commits
        = commits.countP (fun c => decide (specWindow ws c.date))
    ∧ countPrsMerged ws prs
        = prs.countP (fun p =>
            (p.state == "merged")
            && (match p.merged_at with
                | some t => decide (specWindow ws t)
                | none => false))
    ∧ weekEndOfDay (daysFromCivil 2024 3 4) = daysFromCivil 2024 3 10
    ∧ countCommits (daysFromCivil 2024 3 4) [demoCommitMar10] = 1
    ∧ countCommits (daysFromCivil 2024 3 4) [demoCommitMar11] = 0 := by
  refine ⟨rfl, ?_, ?_, by decide, by decide, by decide⟩
  · unfold countCommits
    congr 1
    funext c
    simp [specWindow, Bool.decide_and]
  · unfold countPrsMerged
    congr 1
    funext p
    cases p.merged_at <;> simp [specWindow, Bool.decide_and]

/-- C8: with a stored expiry, a call through `_ensure_valid_token`
refreshes exactly when the token expires within 300 seconds; a
successful refresh replaces the stored refresh token with the one the
provider returned, and a failed refresh raises instead of being
swallowed. -/
theorem token_refresh_spec (resp : Option TokenResponse) (now exp : ℤ)
    (st : QBTokenState) (hexp : st.token_expires_at = some exp) :
    (exp - 300 < now →
      ensure_valid_token resp now st = refresh_access_token resp now st
      ∧ (∀ tokens, resp = some tokens →
          ensure_valid_token resp now st =
            Except.ok { access_token := some tokens.access_token
                        refresh_token := tokens.refresh_token
                        token_expires_at := some (now + tokens.expires_in) })
      ∧ (resp = none →
          ensure_valid_token resp now st =
            Except.error "Failed to refresh QuickBooks access token"))
    ∧ (¬ exp - 300 < now → ensure_valid_token resp now st = Except.ok st) := by
  unfold ensure_valid_token
  simp only [hexp]
  constructor
  · intro h
    rw [if_pos h]
    refine ⟨rfl, ?_, ?_⟩
    · intro tokens ht
      rw [ht]
      rfl
    · intro ht
      rw [ht]
      rfl
  · intro h
    rw [if_neg h]

theorem token_refresh_spec_witness :
    ensure_valid_token (some ⟨"acc2", "ref2", 3600⟩) 800
        ⟨some "acc1", "ref1", some 1000⟩ =
      Except.ok ⟨some "acc2", "ref2", some (800 + 3600)⟩
    ∧ ensure_valid_token none 800 ⟨some "acc1", "ref1", some 1000⟩ =
      Except.error "Failed to refresh QuickBooks access token" :=
  ⟨((token_refresh_spec (some ⟨"acc2", "ref2", 3600⟩) 800 1000
      ⟨some "acc1", "ref1", some 1000⟩ rfl).1 (by decide)).2.1 _ rfl,
   ((token_refresh_spec none 800 1000
      ⟨some "acc1", "ref1", some 1000⟩ rfl).1 (by decide)).2.2 rfl⟩

theorem latestSyncedAt_cons (a : MercuryAccount) (tl : List MercuryAccount) :
    latestSyncedAt (a :: tl) =
      match a.synced_at, latestSyncedAt tl with
      | none, acc => acc
      | some t, none => some t
      | some t, some m => some (max t m) := rfl

theorem latestSyncedAt_none (accounts : List MercuryAccount)
    (h : latestSyncedAt accounts = none) :
    ∀ a ∈ accounts, a.synced_at = none := by
  induction accounts with
  | nil => intro a ha; cases ha
  | cons a tl ih =>
    rw [latestSyncedAt_cons] at h
    intro b hb
    cases ha : a.synced_at with
    | none =>
      rw [ha] at h
      rcases List.mem_cons.1 hb with rfl | hbtl
      · exact ha
      · exact ih h b hbtl
    | some t =>
      rw [ha] at h
      exfalso
      cases htl : latestSyncedAt tl with
      | none => rw [htl] at h; cases h
      | some mt => rw [htl] at h; cases h

theorem latestSyncedAt_attained (accounts : List MercuryAccount) :
    ∀ m, latestSyncedAt accounts = some m → ∃ a ∈ accounts, a.synced_at = some m := by
  induction accounts with
  | nil => intro m h; cases h
  | cons a tl ih =>
    intro m h
    rw [latestSyncedAt_cons] at h
    cases ha : a.synced_at with
    | none =>
      rw [ha] at h
      obtain ⟨b, hb, hbm⟩ := ih m h
      exact ⟨b, List.mem_cons_of_mem _ hb, hbm⟩
    | some t =>
      cases htl : latestSyncedAt tl with
      | none =>
        rw [ha, htl] at h
        cases h
        exact ⟨a, List.mem_cons_self _ _, ha⟩
      | some mt =>
        rw [ha, htl] at h
        cases h
        rcases le_total mt t with hle | hle
        · exact ⟨a, List.mem_cons_self _ _, by rw [ha, max_eq_left hle]⟩
        · obtain ⟨b, hb, hbm⟩ := ih mt htl
          exact ⟨b, List.mem_cons_of_mem _ hb, by rw [hbm, max_eq_right hle]⟩

theorem latestSyncedAt_ub (accounts : List MercuryAccount) :
    ∀ m, latestSyncedAt accounts = some m →
      ∀ a ∈ accounts, ∀ t, a.synced_at = some t → t ≤ m := by
  induction accounts with
  | nil => intro m _ a ha; cases ha
  | cons a tl ih =>
    intro m h b hb t hbt
    rw [latestSyncedAt_cons] at h
    cases ha : a.synced_at with
    | none =>
      rw [ha] at h
      rcases List.mem_cons.1 hb with rfl | hbtl
      · rw [ha] at hbt; cases hbt
      · exact ih m h b hbtl t hbt
    | some ta =>
      cases htl : latestSyncedAt tl with
      | none =>
        rw [ha, htl] at h
        cases h
        rcases List.mem_cons.1 hb with rfl | hbtl
        · rw [ha] at hbt; cases hbt; exact le_refl _
        · rw [latestSyncedAt_none tl htl b hbtl] at hbt
          cases hbt
      | some mt =>
        rw [ha, htl] at h
        cases h
        rcases List.mem_cons.1 hb with rfl | hbtl
        · rw [ha] at hbt; cases hbt; exact le_max_left _ _
        · exact le_trans (ih mt htl b hbtl t hbt) (le_max_right _ _)

/-- C6 counterexample: with accounts synced at seconds 0, 5 and 20
(balances 1, 2 and 4), the most recent sync is second 20 and the
cutoff is second 10, so the metric is 4 — the account synced at 20 —
not 1 + 2 as claimed for the first two accounts. -/
theorem current_balance_example_cex :
    getCurrentBalance demoAccounts = 4
    ∧ getCurrentBalance demoAccounts ≠ 1 + 2 := by
  have h1 : latestSyncedAt demoAccounts = some 20 := by decide
  have h : getCurrentBalance demoAccounts = 4 := by
    unfold getCurrentBalance
    rw [h1]
    norm_num [demoAccounts, mkAccount, round2, round_eq, List.filter]
  refine ⟨h, ?_⟩
  rw [h]
  norm_num

/-- C6 amended: the metric is 0 with no accounts, and otherwise is
the 2-decimal rounding of the sum of `balance` over exactly those
accounts whose `synced_at` is within 10 seconds of the single most
recent `synced_at` value; in the T, T+5s, T+20s example only the
account synced at T+20s qualifies. -/
theorem current_balance_spec (accounts : List MercuryAccount) :
    (accounts = [] → getCurrentBalance accounts = 0)
    ∧ (∀ latest, latestSyncedAt accounts = some latest →
        (getCurrentBalance accounts =
          round2 (((accounts.filter (fun a =>
            match a.synced_at with
            | some t => decide (latest - 10 ≤ t)
            | none => false)).map (fun a => a.balance)).sum))
        ∧ ∀ a ∈ accounts,
            ((match a.synced_at with
              | some t => decide (latest - 10 ≤ t)
              | none => false) = true
             ↔ ∃ t, a.synced_at = some t ∧ latest - 10 ≤ t ∧ t ≤ latest)) := by
  constructor
  · intro h
    rw [h]
    rfl
  · intro latest hlatest
    constructor
    · unfold getCurrentBalance
      rw [hlatest]
      obtain ⟨a, ha, has⟩ := latestSyncedAt_attained accounts latest hlatest
      have hmem : a ∈ accounts.filter (fun a =>
          match a.synced_at with
          | some t => decide (latest - 10 ≤ t)
          | none => false) := by
        rw [List.mem_filter]
        refine ⟨ha, ?_⟩
        rw [has]
        simp
      have hne : (accounts.filter (fun a =>
          match a.synced_at with
          | some t => decide (latest - 10 ≤ t)
          | none => false)).isEmpty = false := by
        cases hemp : (accounts.filter (fun a =>
            match a.synced_at with
            | some t => decide (latest - 10 ≤ t)
            | none => false)).isEmpty
        · rfl
        · rw [List.isEmpty_iff] at hemp
          rw [hemp] at hmem
          cases hmem
      simp only [hne, Bool.false_eq_true, if_false]
    · intro a ha
      cases has : a.synced_at with
      | none => simp
      | some t =>
        simp only [decide_eq_true_eq]
        constructor
        · intro hle
          exact ⟨t, rfl, hle, latestSyncedAt_ub accounts latest hlatest a ha t has⟩
        · rintro ⟨t2, ht2, hle, _⟩
          cases ht2
          exact hle

theorem current_balance_spec_witness :
    latestSyncedAt demoAccounts = some 20
    ∧ getCurrentBalance demoAccounts =
        round2 (((demoAccounts.filter (fun a =>
          match a.synced_at with
          | some t => decide ((20 : ℤ) - 10 ≤ t)
          | none => false)).map (fun a => a.balance)).sum) :=
  ⟨by decide, ((current_balance_spec demoAccounts).2 20 (by decide)).1⟩

theorem key_find_getD {α : Type} (key : α → String) (b : List α) (row : α) :
    key ((b.find? (fun r => key r == key row)).getD row) = key row := by
  cases h : b.find? (fun r => key r == key row) with
  | none => rfl
  | some r =>
    have hp := List.find?_some h
    simp only [Option.getD_some]
    exact eq_of_beq hp

theorem keys_map_upsert {α : Type} (key : α → String) (b s : List α) :
    (s.map (fun row => (b.find? (fun r => key r == key row)).getD row)).map key
      = s.map key := by
  rw [List.map_map]
  apply List.map_congr_left
  intro a _
  exact key_find_getD key b a

theorem mem_keys_upsertBatch {α : Type} (key : α → String) (s b : List α)
    (k : String) :
    k ∈ (upsertBatch key s b).map key ↔ k ∈ s.map key ∨ k ∈ b.map key := by
  unfold upsertBatch
  rw [List.map_append, keys_map_upsert, List.mem_append]
  constructor
  · rintro (h | h)
    · exact Or.inl h
    · rcases List.mem_map.1 h with ⟨r, hr, rfl⟩
      exact Or.inr (List.mem_map.2 ⟨r, (List.mem_filter.1 hr).1, rfl⟩)
  · rintro (h | h)
    · exact Or.inl h
    · by_cases hs : k ∈ s.map key
      · exact Or.inl hs
      · right
        rcases List.mem_map.1 h with ⟨r, hr, rfl⟩
        refine List.mem_map.2 ⟨r, List.mem_filter.2 ⟨hr, ?_⟩, rfl⟩
        rw [Bool.not_eq_true', List.any_eq_false]
        intro x hx hbeq
        exact hs (List.mem_map.2 ⟨x, hx, eq_of_beq hbeq⟩)

theorem find?_self_of_nodup {α : Type} (key : α → String) (b : List α)
    (h : (b.map key).Nodup) :
    ∀ r ∈ b, b.find? (fun x => key x == key r) = some r := by
  induction b with
  | nil => intro r hr; cases hr
  | cons a t ih =>
    intro r hr
    rw [List.map_cons, List.nodup_cons] at h
    rcases List.mem_cons.1 hr with rfl | hrt
    · rw [List.find?_cons_of_pos]
      exact beq_self_eq_true _
    · rw [List.find?_cons_of_neg]
      · exact ih h.2 r hrt
      · intro hbeq
        exact h.1 (eq_of_beq hbeq ▸ List.mem_map.2 ⟨r, hrt, rfl⟩)

theorem filter_map_of_keys {α : Type} (key : α → String) (q : α → Bool)
    (hq : ∀ r r', key r = key r' → q r = q r') :
    ∀ (b1 b2 full : List α),
      b1.map key = b2.map key →
      (∀ r ∈ b2, full.find? (fun x => key x == key r) = some r) →
      (b1.filter q).map
          (fun row => (full.find? (fun r => key r == key row)).getD row)
        = b2.filter q := by
  intro b1
  induction b1 with
  | nil =>
    intro b2 full hk _
    cases b2 with
    | nil => rfl
    | cons a2 t2 => simp at hk
  | cons a1 t1 ih =>
    intro b2 full hk hfull
    cases b2 with
    | nil => simp at hk
    | cons a2 t2 =>
      simp only [List.map_cons, List.cons.injEq] at hk
      obtain ⟨hka, hkt⟩ := hk
      have hqq : q a1 = q a2 := hq a1 a2 hka
      by_cases hq1 : q a1 = true
      · rw [List.filter_cons_of_pos hq1,
          List.filter_cons_of_pos (by rw [← hqq]; exact hq1)]
        rw [List.map_cons]
        congr 1
        · rw [hka, hfull a2 (List.mem_cons_self _ _)]
          rfl
        · exact ih t2 full hkt (fun r hr => hfull r (List.mem_cons_of_mem _ hr))
      · rw [List.filter_cons_of_neg (by simpa using hq1),
          List.filter_cons_of_neg (by rw [← hqq]; simpa using hq1)]
        exact ih t2 full hkt (fun r hr => hfull r (List.mem_cons_of_mem _ hr))

theorem upsertBatch_idem {α : Type} (key : α → String) (s b1 b2 : List α)
    (hk : b1.map key = b2.map key) (hnd : (b2.map key).Nodup) :
    upsertBatch key (upsertBatch key s b1) b2 = upsertBatch key s b2 := by
  have hfilter2 : b2.filter
      (fun r => ! (upsertBatch key s b1).any (fun row => key row == key r))
      = [] := by
    rw [List.filter_eq_nil_iff]
    intro r hr h
    rw [Bool.not_eq_true', List.any_eq_false] at h
    have hmem : key r ∈ (upsertBatch key s b1).map key := by
      rw [mem_keys_upsertBatch]
      exact Or.inr (hk ▸ List.mem_map.2 ⟨r, hr, rfl⟩)
    rcases List.mem_map.1 hmem with ⟨row, hrow, hkey⟩
    exact h row hrow (by rw [hkey]; exact beq_self_eq_true _)
  have step1 : (s.map (fun row =>
        (b1.find? (fun r => key r == key row)).getD row)).map
      (fun row => (b2.find? (fun r => key r == key row)).getD row)
      = s.map (fun row => (b2.find? (fun r => key r == key row)).getD row) := by
    rw [List.map_map]
    apply List.map_congr_left
    intro row _
    show (b2.find? (fun r => key r ==
        key ((b1.find? (fun r => key r == key row)).getD row))).getD
        ((b1.find? (fun r => key r == key row)).getD row)
      = (b2.find? (fun r => key r == key row)).getD row
    rw [key_find_getD key b1 row]
    cases h1 : b1.find? (fun r => key r == key row) with
    | none => rfl
    | some r1 =>
      have hr1 : key row ∈ b2.map key := by
        rw [← hk]
        have hb := List.find?_some (p := fun r => key r == key row) h1
        have hb2 : (key r1 == key row) = true := hb
        exact List.mem_map.2 ⟨r1, List.mem_of_find?_eq_some h1, eq_of_beq hb2⟩
      rcases List.mem_map.1 hr1 with ⟨r2, hr2, hkr2⟩
      have h2 : ∃ x, b2.find? (fun r => key r == key row) = some x := by
        rw [← Option.isSome_iff_exists, List.find?_isSome]
        exact ⟨r2, hr2, by rw [hkr2]; exact beq_self_eq_true _⟩
      rcases h2 with ⟨x, hx⟩
      rw [hx]
      rfl
  have step2 : ((b1.filter (fun r => ! s.any (fun row => key row == key r))).map
      (fun row => (b2.find? (fun r => key r == key row)).getD row))
      = b2.filter (fun r => ! s.any (fun row => key row == key r)) := by
    apply filter_map_of_keys key _ _ b1 b2 b2 hk (find?_self_of_nodup key b2 hnd)
    intro r r' hrr
    have : (fun row => key row == key r) = (fun row => key row == key r') := by
      funext row
      rw [hrr]
    rw [this]
  calc upsertBatch key (upsertBatch key s b1) b2
      = (upsertBatch key s b1).map
          (fun row => (b2.find? (fun r => key r == key row)).getD row)
        ++ b2.filter
          (fun r => ! (upsertBatch key s b1).any (fun row => key row == key r)) := rfl
    _ = (upsertBatch key s b1).map
          (fun row => (b2.find? (fun r => key r == key row)).getD row) := by
        rw [hfilter2, List.append_nil]
    _ = (s.map (fun row => (b1.find? (fun r => key r == key row)).getD row)).map
          (fun row => (b2.find? (fun r => key r == key row)).getD row)
        ++ (b1.filter (fun r => ! s.any (fun row => key row == key r))).map
          (fun row => (b2.find? (fun r => key r == key row)).getD row) := by
        rw [← List.map_append]
        rfl
    _ = s.map (fun row => (b2.find? (fun r => key r == key row)).getD row)
        ++ b2.filter (fun r => ! s.any (fun row => key row == key r)) := by
        rw [step1, step2]
    _ = upsertBatch key s b2 := rfl

/-- C1: loading the same batch twice in succession (at stamp times t1
then t2) leaves the store equal — in row count and in every field —
to the store after loading it once at t2, for the commit loader keyed
by `commit_sha` and the account loader keyed by `account_id`, provided
the batch has no duplicate natural keys (a duplicate key in one bulk
upsert is rejected by the store). -/
theorem load_twice_eq_load_once (t1 t2 : ℤ)
    (commits : List GithubCommit) (cstore : List GithubCommit)
    (accounts : List MercuryAccount) (astore : List MercuryAccount)
    (hc : (commits.map (fun c => c.commit_sha)).Nodup)
    (ha : (accounts.map (fun a => a.account_id)).Nodup) :
    (load_github_commits t2 commits (load_github_commits t1 commits cstore).1).1
      = (load_github_commits t2 commits cstore).1
    ∧ (load_github_commits t2 commits
        (load_github_commits t1 commits cstore).1).1.length
      = (load_github_commits t2 commits cstore).1.length
    ∧ (load_mercury_accounts t2 accounts
        (load_mercury_accounts t1 accounts astore).1).1
      = (load_mercury_accounts t2 accounts astore).1 := by
  have hcs : (load_github_commits t2 commits
      (load_github_commits t1 commits cstore).1).1
      = (load_github_commits t2 commits cstore).1 := by
    unfold load_github_commits
    apply upsertBatch_idem
    · rw [List.map_map, List.map_map]
      rfl
    · rw [List.map_map]
      exact hc
  refine ⟨hcs, by rw [hcs], ?_⟩
  unfold load_mercury_accounts
  apply upsertBatch_idem
  · rw [List.map_map, List.map_map]
    rfl
  · rw [List.map_map]
    exact ha

theorem load_twice_eq_load_once_witness :
    ((demoCommitBatch.map (fun c => c.commit_sha)).Nodup
      ∧ (demoAccountBatch.map (fun a => a.account_id)).Nodup)
    ∧ (load_github_commits 2 demoCommitBatch
        (load_github_commits 1 demoCommitBatch []).1).1
      = (load_github_commits 2 demoCommitBatch []).1 :=
  ⟨⟨by decide, by decide⟩,
   (load_twice_eq_load_once 1 2 demoCommitBatch [] demoAccountBatch []
     (by decide) (by decide)).1⟩

theorem loadPaymentsLoop_spec (inv : List String) (ps : List PaymentRecord) :
    ∀ store,
      (loadPaymentsLoop inv ps store).2.1
        = (ps.filter (fun p => inv.contains p.invoice_id)).length
      ∧ (loadPaymentsLoop inv ps store).2.2
        = (ps.filter (fun p => ! inv.contains p.invoice_id)).length
      ∧ (loadPaymentsLoop inv ps store).1
        = (ps.filter (fun p => inv.contains p.invoice_id)).foldl
            (fun st p => upsertBatch (fun q => q.payment_id) st [p]) store := by
  induction ps with
  | nil => intro store; exact ⟨rfl, rfl, rfl⟩
  | cons p rest ih =>
    intro store
    have hstep : loadPaymentsLoop inv (p :: rest) store =
        if inv.contains p.invoice_id then
          ((loadPaymentsLoop inv rest
              (upsertBatch (fun q => q.payment_id) store [p])).1,
           (loadPaymentsLoop inv rest
              (upsertBatch (fun q => q.payment_id) store [p])).2.1 + 1,
           (loadPaymentsLoop inv rest
              (upsertBatch (fun q => q.payment_id) store [p])).2.2)
        else
          ((loadPaymentsLoop inv rest store).1,
           (loadPaymentsLoop inv rest store).2.1,
           (loadPaymentsLoop inv rest store).2.2 + 1) := rfl
    by_cases hp : inv.contains p.invoice_id = true
    · have hf1 : (p :: rest).filter (fun p => inv.contains p.invoice_id)
          = p :: rest.filter (fun p => inv.contains p.invoice_id) := by
        rw [List.filter_cons, if_pos hp]
      have hf2 : (p :: rest).filter (fun p => ! inv.contains p.invoice_id)
          = rest.filter (fun p => ! inv.contains p.invoice_id) := by
        rw [List.filter_cons, if_neg]
        rw [hp]
        simp
      rw [hstep, if_pos hp, hf1, hf2, List.length_cons, List.foldl_cons]
      refine ⟨?_, ?_, ?_⟩
      · rw [(ih (upsertBatch (fun q => q.payment_id) store [p])).1]
      · exact (ih (upsertBatch (fun q => q.payment_id) store [p])).2.1
      · exact (ih (upsertBatch (fun q => q.payment_id) store [p])).2.2
    · have hp0 : inv.contains p.invoice_id = false := by
        revert hp
        cases inv.contains p.invoice_id
        · intro _; rfl
        · intro hp; exact absurd rfl hp
      have hf1 : (p :: rest).filter (fun p => inv.contains p.invoice_id)
          = rest.filter (fun p => inv.contains p.invoice_id) := by
        rw [List.filter_cons, if_neg]
        rw [hp0]
        simp
      have hf2 : (p :: rest).filter (fun p => ! inv.contains p.invoice_id)
          = p :: rest.filter (fun p => ! inv.contains p.invoice_id) := by
        rw [List.filter_cons, if_pos]
        rw [hp0]
        rfl
      rw [hstep, if_neg hp, hf1, hf2, List.length_cons]
      exact ⟨(ih store).1, by rw [(ih store).2.1], (ih store).2.2⟩

/-- C3: `load_quickbooks_payments` upserts record by record; records
whose invoice is missing from the store fail their foreign-key check
and are skipped and counted separately, the rest are persisted, the
loop never raises, and the returned loaded count is the number of
records actually persisted; a batch of 10 payments of which 3
reference nonexistent invoices loads 7 and skips 3. -/
theorem load_payments_partial_tolerance (invoiceIds : List String)
    (stamp : ℤ) (payments : List PaymentRecord)
    (store : List PaymentRecord) :
    (load_quickbooks_payments invoiceIds stamp payments store).2.1
      = (payments.filter (fun p => invoiceIds.contains p.invoice_id)).length
    ∧ (load_quickbooks_payments invoiceIds stamp payments store).2.2
      = (payments.filter (fun p => ! invoiceIds.contains p.invoice_id)).length
    ∧ (load_quickbooks_payments invoiceIds stamp payments store).2.1
        + (load_quickbooks_payments invoiceIds stamp payments store).2.2
      = payments.length
    ∧ (load_quickbooks_payments invoiceIds stamp payments store).1
      = ((payments.filter (fun p => invoiceIds.contains p.invoice_id)).map
          (fun p => { p with synced_at := some stamp })).foldl
          (fun st p => upsertBatch (fun q => q.payment_id) st [p]) store
    ∧ (load_quickbooks_payments demoInvoiceIds 0 demoPayments []).2.1 = 7
    ∧ (load_quickbooks_payments demoInvoiceIds 0 demoPayments []).2.2 = 3 := by
  have hspec := loadPaymentsLoop_spec invoiceIds
    (payments.map (fun p => { p with synced_at := some stamp })) store
  have hfm1 : (payments.map (fun p => { p with synced_at := some stamp })).filter
      (fun p => invoiceIds.contains p.invoice_id)
      = (payments.filter (fun p => invoiceIds.contains p.invoice_id)).map
        (fun p => { p with synced_at := some stamp }) := by
    rw [List.filter_map]
    rfl
  have hfm2 : (payments.map (fun p => { p with synced_at := some stamp })).filter
      (fun p => ! invoiceIds.contains p.invoice_id)
      = (payments.filter (fun p => ! invoiceIds.contains p.invoice_id)).map
        (fun p => { p with synced_at := some stamp }) := by
    rw [List.filter_map]
    rfl
  have h1 : (load_quickbooks_payments invoiceIds stamp payments store).2.1
      = (payments.filter (fun p => invoiceIds.contains p.invoice_id)).length := by
    unfold load_quickbooks_payments
    rw [hspec.1, hfm1, List.length_map]
  have h2 : (load_quickbooks_payments invoiceIds stamp payments store).2.2
      = (payments.filter (fun p => ! invoiceIds.contains p.invoice_id)).length := by
    unfold load_quickbooks_payments
    rw [hspec.2.1, hfm2, List.length_map]
  refine ⟨h1, h2, ?_, ?_, by decide, by decide⟩
  · rw [h1, h2]
    exact (List.length_eq_length_filter_add
      (fun p : PaymentRecord => invoiceIds.contains p.invoice_id)).symm
  · unfold load_quickbooks_payments
    rw [hspec.2.2, hfm1]

/-- C9 counterexample: a payment of 100 linked to three invoices is
emitted with per-invoice amount 100/3, which is not a 2-decimal
amount — the even split in `get_payments` is not rounded at its point
of calculation. -/
theorem unrounded_split_cex :
    (paymentRecordsOf demoRawPayment).map (fun r => r.amount)
      = [100 / 3, 100 / 3, 100 / 3]
    ∧ ¬ isTwoDecimal ((100 : ℚ) / 3) := by
  constructor
  · have hids : linkedInvoiceIds demoRawPayment
        = ["INV-1", "INV-2", "INV-3"] := by decide
    have hT : demoRawPayment.TotalAmt = 100 := rfl
    simp only [paymentRecordsOf, hids, hT]
    norm_num
  · rintro ⟨n, hn⟩
    have h3 : (10000 : ℚ) = 3 * n := by
      field_simp at hn
      linarith [hn]
    have h4 : (10000 : ℤ) = 3 * n := by exact_mod_cast h3
    omega

/-- C9 amended: the four monetary metrics — accounts receivable, cash
collected, invoiced amount and current balance — are rounded to two
decimals at their point of calculation; the per-invoice amount of a
payment split across n linked invoices is exactly `TotalAmt / n`,
unrounded, and so need not be a 2-decimal amount. -/
theorem money_rounding_spec (invs : List InvoiceRecord) (s e : ℤ)
    (pays : List PaymentRecord) (accs : List MercuryAccount)
    (pmt : QBRawPayment) :
    isTwoDecimal (calculate_ar invs)
    ∧ isTwoDecimal (calculate_cash_collected s e pays)
    ∧ isTwoDecimal (calculate_invoiced s e invs)
    ∧ isTwoDecimal (getCurrentBalance accs)
    ∧ (paymentRecordsOf pmt).map (fun r => r.amount)
        = (linkedInvoiceIds pmt).map
            (fun _ => pmt.TotalAmt / ((linkedInvoiceIds pmt).length : ℚ)) := by
  refine ⟨round2_isTwoDecimal _, round2_isTwoDecimal _,
    round2_isTwoDecimal _, ?_, ?_⟩
  · unfold getCurrentBalance
    cases hl : latestSyncedAt accs with
    | none => exact ⟨0, by norm_num⟩
    | some latest =>
      dsimp only
      split
      · exact ⟨0, by norm_num⟩
      · exact round2_isTwoDecimal _
  · unfold paymentRecordsOf
    rw [List.map_map]
    rfl

/-- C10: `get_payments` emits exactly one canonical record per linked
transaction of type Invoice — payment_id `PMT-<id>-<invoice id>`,
amount `TotalAmt / n` with n the number of linked invoices — and a
payment linked to zero invoices emits no record at all. -/
theorem get_payments_per_linked_invoice (pmt : QBRawPayment) :
    paymentRecordsOf pmt
      = (linkedInvoiceIds pmt).map (fun invId =>
          { payment_id := "PMT-" ++ pmt.Id ++ "-" ++ invId
            invoice_id := invId
            payment_date := pmt.TxnDate
            amount := pmt.TotalAmt / ((linkedInvoiceIds pmt).length : ℚ)
            synced_at := none })
    ∧ (paymentRecordsOf pmt).length
      = (pmt.Line.map (fun line =>
          (line.LinkedTxn.filter (fun t => t.TxnType == "Invoice")).length)).sum
    ∧ (linkedInvoiceIds pmt = [] → paymentRecordsOf pmt = [])
    ∧ paymentRecordsOf demoZeroInvoicePayment = [] := by
  refine ⟨rfl, ?_, ?_, by decide⟩
  · show ((linkedInvoiceIds pmt).map _).length = _
    rw [List.length_map]
    unfold linkedInvoiceIds
    rw [List.length_flatten, List.map_map]
    congr 1
    apply List.map_congr_left
    intro line _
    exact List.length_map _ _
  · intro h
    simp only [paymentRecordsOf, h]
    rfl

theorem get_payments_per_linked_invoice_witness :
    linkedInvoiceIds demoZeroInvoicePayment = []
    ∧ paymentRecordsOf demoZeroInvoicePayment = [] :=
  ⟨by decide,
   (get_payments_per_linked_invoice demoZeroInvoicePayment).2.2.1 (by decide)⟩
